import Mathlib

/-!
Verification development for the theramin repository.

The motion pipeline lives in `src/hooks/useMotionSensor.ts`; the recorder
and playback scheduler live in the `useRecorder` hook.  Numbers are
modelled as rationals (`ℚ`): every arithmetic operation performed by the
code (addition, subtraction, multiplication, division by a nonzero
constant, comparison) is exact on the inputs the claims quantify over, so
the rational semantics is the idealised finite-value semantics of the
JavaScript number type.  A second, smaller layer (`JsNum`) additionally
models the IEEE `NaN` value, which matters for the validity guard of
`handleMotion`: that guard checks components against `null` only, so a
non-finite component flows through the numeric pipeline.  `JsNum.nan`
propagates through arithmetic and makes every comparison false, exactly
as `NaN` does in JavaScript.

State held in React `useRef` cells is modelled as explicit state records
threaded through the functions.  React `useState` debug/performance data
(`debugData`, update-rate counters, rotation data) is modelled only where
a claim depends on it: the calibration status/progress report that
`calibrate` writes into `debugData` is returned as a `CalibStatus` value.
Wall-clock reads (`Date.now()`) are passed in as explicit parameters.
-/

namespace Theramin

/-! ## Smoothing filter (`applySmoothing`, useMotionSensor.ts lines 141-145) -/

/-- `SmoothingFilter` from useMotionSensor.ts: `alpha` and `prevValue`. -/
structure SmoothingFilter where
  alpha : ℚ
  prevValue : ℚ
deriving DecidableEq

/-- `applySmoothing(filter, newValue)`: returns the smoothed value and the
updated filter (the source mutates `filter.prevValue`). -/
def applySmoothing (filter : SmoothingFilter) (newValue : ℚ) : ℚ × SmoothingFilter :=
  let smoothed := filter.alpha * newValue + (1 - filter.alpha) * filter.prevValue
  (smoothed, { filter with prevValue := smoothed })

/-! ## Position tracker (`updatePosition`, useMotionSensor.ts lines 151-183) -/

/-- `PositionTracker` from useMotionSensor.ts: integrated position,
velocity, and the centering-force constant. -/
structure PositionTracker where
  position : ℚ
  velocity : ℚ
  centeringForce : ℚ
deriving DecidableEq

/-- `updatePosition(tracker, acceleration, dt)`: physics integration with
damping, centering force and boundary clamping with a `-0.5` bounce.
Returns the new position together with the updated tracker.  The source
defaults `dt` to `1/60`; callers that use the default pass `1/60`
explicitly here. -/
def updatePosition (tracker : PositionTracker) (acceleration : ℚ) (dt : ℚ) :
    ℚ × PositionTracker :=
  -- const sensitivity = 0.08
  let v1 := tracker.velocity + acceleration * (8/100) * dt
  -- const damping = 0.85; tracker.velocity *= damping
  let v2 := v1 * (85/100)
  -- const centeringAccel = (0.5 - tracker.position) * tracker.centeringForce
  let v3 := v2 + (1/2 - tracker.position) * tracker.centeringForce
  -- tracker.position += tracker.velocity
  let p2 := tracker.position + v3
  if p2 > 1 then
    (1, { tracker with position := 1, velocity := v3 * (-(1/2)) })
  else if p2 < 0 then
    (0, { tracker with position := 0, velocity := v3 * (-(1/2)) })
  else
    (p2, { tracker with position := p2, velocity := v3 })

/-- Initial value of `pitchTrackerRef` (and `volumeTrackerRef`):
position 0.5, velocity 0, centeringForce 0.02. -/
def pitchTracker0 : PositionTracker :=
  { position := 1/2, velocity := 0, centeringForce := 2/100 }

/-- Trajectory of values returned by successive `updatePosition` calls on
one tracker, one call per `(acceleration, dt)` input. -/
def updateOutputs (tracker : PositionTracker) : List (ℚ × ℚ) → List ℚ
  | [] => []
  | (a, dt) :: rest =>
      let r := updatePosition tracker a dt
      r.1 :: updateOutputs r.2 rest

/-! ## Calibrator (`calibrate`, useMotionSensor.ts lines 188-218) -/

/-- The calibration status/progress that `calibrate` reports into
`debugData` (`calibrationStatus` together with `calibrationProgress`). -/
inductive CalibStatus where
  | pending : CalibStatus
  | calibrating : ℚ → CalibStatus
  | complete : CalibStatus
deriving DecidableEq

/-- Calibration state: `calibrationSamplesRef` and `calibrationRef`. -/
structure CalibState where
  samples : List (ℚ × ℚ × ℚ)
  baseline : Option (ℚ × ℚ × ℚ)
deriving DecidableEq

/-- `calibrate(x, y, z)`: push the sample; once 30 samples exist, set the
baseline to the per-axis average; otherwise report fractional progress
`min(100, length/30*100)`.  Returns the updated state together with the
status report written into `debugData`. -/
def calibrate (st : CalibState) (x y z : ℚ) : CalibState × CalibStatus :=
  let samples := st.samples ++ [(x, y, z)]
  let progress := min 100 ((samples.length : ℚ) / 30 * 100)
  if samples.length ≥ 30 then
    let avgX := samples.foldl (fun sum s => sum + s.1) 0 / (samples.length : ℚ)
    let avgY := samples.foldl (fun sum s => sum + s.2.1) 0 / (samples.length : ℚ)
    let avgZ := samples.foldl (fun sum s => sum + s.2.2) 0 / (samples.length : ℚ)
    ({ samples := samples, baseline := some (avgX, avgY, avgZ) }, CalibStatus.complete)
  else
    ({ samples := samples, baseline := st.baseline }, CalibStatus.calibrating progress)

/-- Initial calibration state: no samples, no baseline. -/
def calibState0 : CalibState := { samples := [], baseline := none }

/-- Fold `calibrate` over a list of samples, keeping only the state. -/
def runCalibrate (st : CalibState) (l : List (ℚ × ℚ × ℚ)) : CalibState :=
  l.foldl (fun s c => (calibrate s c.1 c.2.1 c.2.2).1) st

/-! ## Recorder and playback scheduler (`useRecorder`) -/

/-- `RecordedFrame` from useRecorder: offset (ms) since recording start,
pitch and volume. -/
structure RecordedFrame where
  timestamp : ℚ
  pitch : ℚ
  volume : ℚ
deriving DecidableEq

/-- The state of the `useRecorder` hook: the `useState` flags, the
recording buffer ref, the recording start instant, whether the playback
interval is currently scheduled (`playbackIntervalRef` non-null), and the
playback closure's `frameIndex` / `startTime` locals. -/
structure RecorderST where
  isRecording : Bool
  hasRecording : Bool
  isPlayingBack : Bool
  recording : List RecordedFrame
  recordingStartTime : ℚ
  playbackInterval : Bool
  frameIndex : ℕ
  playbackStartTime : ℚ
deriving DecidableEq

/-- `startRecording()`: empty the buffer, record the start instant, set
`isRecording`, clear `hasRecording`.  `now` is the `Date.now()` reading. -/
def startRecording (st : RecorderST) (now : ℚ) : RecorderST :=
  { st with recording := [], recordingStartTime := now,
            isRecording := true, hasRecording := false }

/-- `recordFrame(pitch, volume)`: no-op unless recording; otherwise append
a frame stamped `now - recordingStartTime`. -/
def recordFrame (st : RecorderST) (now pitch volume : ℚ) : RecorderST :=
  if !st.isRecording then st
  else
    { st with recording :=
        st.recording ++ [{ timestamp := now - st.recordingStartTime,
                           pitch := pitch, volume := volume }] }

/-- `stopRecording()`: clear `isRecording`; set `hasRecording` if the
buffer is non-empty. -/
def stopRecording (st : RecorderST) : RecorderST :=
  { st with isRecording := false,
            hasRecording := if st.recording.length > 0 then true else st.hasRecording }

/-- `playRecording()`: no-op on an empty buffer; otherwise set
`isPlayingBack`, reset the frame cursor, record the wall-clock start and
schedule the periodic tick (replacing any previously scheduled one). -/
def playRecording (st : RecorderST) (now : ℚ) : RecorderST :=
  if st.recording.length = 0 then st
  else
    { st with isPlayingBack := true, frameIndex := 0,
              playbackStartTime := now, playbackInterval := true }

/-- The catch-up while loop of the playback tick: starting at index `i`,
dispatch every consecutive frame whose timestamp is `≤ t`.  Returns the
new index and the dispatched `(pitch, volume)` pairs in order. -/
def dispatchFrom (frames : List RecordedFrame) (i : ℕ) (t : ℚ) :
    ℕ × List (ℚ × ℚ) :=
  if h : i < frames.length then
    let f := frames.get ⟨i, h⟩
    if f.timestamp ≤ t then
      let r := dispatchFrom frames (i + 1) t
      (r.1, (f.pitch, f.volume) :: r.2)
    else (i, [])
  else (i, [])
termination_by frames.length - i

/-- One firing of the playback `setInterval` callback at wall-clock `now`:
run the catch-up loop, then, if all frames have been played, cancel the
interval and leave the `Playing` state. -/
def tickOnce (st : RecorderST) (now : ℚ) : RecorderST × List (ℚ × ℚ) :=
  let currentTime := now - st.playbackStartTime
  let r := dispatchFrom st.recording st.frameIndex currentTime
  let st1 := { st with frameIndex := r.1 }
  if r.1 ≥ st.recording.length then
    ({ st1 with playbackInterval := false, isPlayingBack := false }, r.2)
  else (st1, r.2)

/-- Drive the scheduler with a sequence of wall-clock tick instants.  A
tick fires only while the interval is scheduled (a cancelled interval
never fires again); the emissions of all ticks are concatenated. -/
def runTicks (st : RecorderST) : List ℚ → RecorderST × List (ℚ × ℚ)
  | [] => (st, [])
  | now :: rest =>
      if st.playbackInterval then
        let r := tickOnce st now
        let r2 := runTicks r.1 rest
        (r2.1, r.2 ++ r2.2)
      else runTicks st rest

/-- `stopPlayback()`: cancel the interval if scheduled, then clear
`isPlayingBack`. -/
def stopPlayback (st : RecorderST) : RecorderST :=
  let st1 := if st.playbackInterval then { st with playbackInterval := false } else st
  { st1 with isPlayingBack := false }

/-- `clearRecording()`: empty the buffer, clear `hasRecording`, then
`stopPlayback()`. -/
def clearRecording (st : RecorderST) : RecorderST :=
  stopPlayback { st with recording := [], hasRecording := false }

/-- Fold `recordFrame` over a list of `(now, pitch, volume)` captures. -/
def runCaptures (st : RecorderST) (caps : List (ℚ × ℚ × ℚ)) : RecorderST :=
  caps.foldl (fun s c => recordFrame s c.1 c.2.1 c.2.2) st

/-! ## JavaScript number values with `NaN`

The guard at the top of `handleMotion` rejects `null` components only, so
non-finite values reach the numeric pipeline.  `JsNum` models a JavaScript
number as either `NaN` or a finite (rational) value: `NaN` propagates
through `+`, `-`, `*`, `/` and makes `<` and `>` comparisons false, as in
IEEE/JavaScript semantics.  (IEEE infinities behave like `NaN` for every
code path relevant here: they are not `null`, so they also pass the guard.)
-/

/-- A JavaScript number: `NaN` or a finite value. -/
inductive JsNum where
  | nan : JsNum
  | num : ℚ → JsNum
deriving DecidableEq

namespace JsNum

/-- JS addition: `NaN` propagates. -/
def add : JsNum → JsNum → JsNum
  | num a, num b => num (a + b)
  | _, _ => nan

/-- JS subtraction: `NaN` propagates. -/
def sub : JsNum → JsNum → JsNum
  | num a, num b => num (a - b)
  | _, _ => nan

/-- JS multiplication: `NaN` propagates. -/
def mul : JsNum → JsNum → JsNum
  | num a, num b => num (a * b)
  | _, _ => nan

/-- JS division; `NaN` propagates.  Division by zero never occurs in the
modelled code (the only divisor is a sample count `≥ 30`). -/
def div : JsNum → JsNum → JsNum
  | num a, num b => if b = 0 then nan else num (a / b)
  | _, _ => nan

instance : Add JsNum := ⟨add⟩
instance : Sub JsNum := ⟨sub⟩
instance : Mul JsNum := ⟨mul⟩

/-- JS `>`: any comparison involving `NaN` is false. -/
def gtb : JsNum → JsNum → Bool
  | num a, num b => decide (a > b)
  | _, _ => false

/-- JS `<`: any comparison involving `NaN` is false. -/
def ltb : JsNum → JsNum → Bool
  | num a, num b => decide (a < b)
  | _, _ => false

end JsNum

/-! ## The motion pipeline at JS-number semantics

The functions below transcribe the same source lines as the rational-level
functions above, but over `JsNum`, so that the behaviour of the
`handleMotion` validity guard on non-finite components can be settled.
-/

/-- `SmoothingFilter` over JS numbers. -/
structure SmoothingFilterJs where
  alpha : JsNum
  prevValue : JsNum
deriving DecidableEq

/-- `applySmoothing` over JS numbers (useMotionSensor.ts lines 141-145). -/
def applySmoothingJs (filter : SmoothingFilterJs) (newValue : JsNum) :
    JsNum × SmoothingFilterJs :=
  let smoothed := filter.alpha * newValue + (JsNum.num 1 - filter.alpha) * filter.prevValue
  (smoothed, { filter with prevValue := smoothed })

/-- `PositionTracker` over JS numbers. -/
structure PositionTrackerJs where
  position : JsNum
  velocity : JsNum
  centeringForce : JsNum
deriving DecidableEq

/-- `updatePosition` over JS numbers (useMotionSensor.ts lines 151-183).
Comparisons with a `NaN` position are false, so a `NaN` position is left
unclamped, as in the source. -/
def updatePositionJs (tracker : PositionTrackerJs) (acceleration dt : JsNum) :
    JsNum × PositionTrackerJs :=
  let v1 := tracker.velocity + acceleration * JsNum.num (8/100) * dt
  let v2 := v1 * JsNum.num (85/100)
  let v3 := v2 + (JsNum.num (1/2) - tracker.position) * tracker.centeringForce
  let p2 := tracker.position + v3
  if p2.gtb (JsNum.num 1) then
    (JsNum.num 1, { tracker with position := JsNum.num 1, velocity := v3 * JsNum.num (-(1/2)) })
  else if p2.ltb (JsNum.num 0) then
    (JsNum.num 0, { tracker with position := JsNum.num 0, velocity := v3 * JsNum.num (-(1/2)) })
  else
    (p2, { tracker with position := p2, velocity := v3 })

/-- Calibration state over JS numbers (`calibrationSamplesRef` and
`calibrationRef`; the `debugData` status report is modelled at the
rational level by `calibrate`). -/
structure CalibStateJs where
  samples : List (JsNum × JsNum × JsNum)
  baseline : Option (JsNum × JsNum × JsNum)
deriving DecidableEq

/-- `calibrate` over JS numbers (useMotionSensor.ts lines 188-218). -/
def calibrateJs (st : CalibStateJs) (x y z : JsNum) : CalibStateJs :=
  let samples := st.samples ++ [(x, y, z)]
  if samples.length ≥ 30 then
    let len := JsNum.num (samples.length : ℚ)
    let avgX := (samples.foldl (fun sum s => sum + s.1) (JsNum.num 0)).div len
    let avgY := (samples.foldl (fun sum s => sum + s.2.1) (JsNum.num 0)).div len
    let avgZ := (samples.foldl (fun sum s => sum + s.2.2) (JsNum.num 0)).div len
    { samples := samples, baseline := some (avgX, avgY, avgZ) }
  else
    { samples := samples, baseline := st.baseline }

/-- The mutable pipeline state of `useMotionSensor`: the two position
trackers, the two smoothing filters, and the calibration refs.  Debug,
update-rate and rotation state is not claim-relevant and is omitted. -/
structure MotionState where
  pitchTracker : PositionTrackerJs
  volumeTracker : PositionTrackerJs
  accelYFilter : SmoothingFilterJs
  accelXFilter : SmoothingFilterJs
  calib : CalibStateJs
deriving DecidableEq

/-- `event.accelerationIncludingGravity`: each component is a number or
`null`. -/
structure AccelJs where
  x : Option JsNum
  y : Option JsNum
  z : Option JsNum
deriving DecidableEq

/-- `handleMotion(event)` (useMotionSensor.ts lines 234-302): return early
when the acceleration object or any component is `null`; otherwise
calibrate while no baseline exists (emitting nothing), and once the
baseline is set subtract it, smooth the X and Y channels, integrate the
two trackers and emit `(pitch, volume)`.  The second component of the
result is the `onMotionUpdate` emission (`none` = no emission). -/
def handleMotion (st : MotionState) (accel : Option AccelJs) :
    MotionState × Option (JsNum × JsNum) :=
  match accel with
  | none => (st, none)
  | some a =>
    match a.x, a.y, a.z with
    | some ax, some ay, some az =>
      match st.calib.baseline with
      | none => ({ st with calib := calibrateJs st.calib ax ay az }, none)
      | some (cx, cy, _cz) =>
        let x := ax - cx
        let y := ay - cy
        -- `z` is also baseline-corrected in the source, but feeds only debugData.
        let ry := applySmoothingJs st.accelYFilter y
        let rx := applySmoothingJs st.accelXFilter x
        let rp := updatePositionJs st.pitchTracker ry.1 (JsNum.num (1/60))
        let rv := updatePositionJs st.volumeTracker rx.1 (JsNum.num (1/60))
        ({ st with pitchTracker := rp.2, volumeTracker := rv.2,
                   accelYFilter := ry.2, accelXFilter := rx.2 },
         some (rp.1, rv.1))
    | _, _, _ => (st, none)

/-- The calibration reset performed at the start of every
`requestPermission()` call (useMotionSensor.ts lines 307-315): clear the
baseline and the accumulated samples.  The rest of `requestPermission`
negotiates host permissions and event listeners and touches no other
pipeline state. -/
def requestPermissionReset (st : MotionState) : MotionState :=
  { st with calib := { samples := [], baseline := none } }

/-- Feed a list of accepted (non-null) samples through `handleMotion`. -/
def runAccepted (st : MotionState) (l : List (JsNum × JsNum × JsNum)) : MotionState :=
  l.foldl (fun s c => (handleMotion s (some ⟨some c.1, some c.2.1, some c.2.2⟩)).1) st

/-! ## Shared helper lemmas -/

/-- Every value returned by `updatePosition` lies in `[0, 1]`: the final
`if` either clamps to a boundary or returns a `p2` that failed both
boundary tests. -/
theorem updatePosition_fst_bounds (tr : PositionTracker) (a dt : ℚ) :
    0 ≤ (updatePosition tr a dt).1 ∧ (updatePosition tr a dt).1 ≤ 1 := by
  simp only [updatePosition]
  split_ifs with h1 h2
  · norm_num
  · norm_num
  · constructor <;> linarith

/-- The value returned by `updatePosition` is the stored position of the
updated tracker. -/
theorem updatePosition_fst_eq_position (tr : PositionTracker) (a dt : ℚ) :
    (updatePosition tr a dt).1 = (updatePosition tr a dt).2.position := by
  simp only [updatePosition]
  split_ifs <;> rfl

/-- `updatePosition` never changes the centering-force constant. -/
theorem updatePosition_centeringForce (tr : PositionTracker) (a dt : ℚ) :
    (updatePosition tr a dt).2.centeringForce = tr.centeringForce := by
  simp only [updatePosition]
  split_ifs <;> rfl

/-- Every element of an `updateOutputs` trajectory lies in `[0, 1]`. -/
theorem updateOutputs_mem_bounds (inputs : List (ℚ × ℚ)) :
    ∀ (tr : PositionTracker) (r : ℚ), r ∈ updateOutputs tr inputs → 0 ≤ r ∧ r ≤ 1 := by
  induction inputs with
  | nil => intro tr r h; simp [updateOutputs] at h
  | cons hd tl ih =>
      intro tr r h
      rcases hd with ⟨a, dt⟩
      simp only [updateOutputs, List.mem_cons] at h
      rcases h with h | h
      · exact h ▸ updatePosition_fst_bounds tr a dt
      · exact ih _ r h

/-- A cancelled interval never fires: `runTicks` from a state whose
playback interval is not scheduled emits nothing and changes nothing. -/
theorem runTicks_inactive (ts : List ℚ) (st : RecorderST)
    (h : st.playbackInterval = false) : runTicks st ts = (st, []) := by
  induction ts with
  | nil => rfl
  | cons t ts ih => simp [runTicks, h, ih]

/-- `stopPlayback` clears the interval and the `Playing` flag. -/
theorem stopPlayback_fields (st : RecorderST) :
    (stopPlayback st).playbackInterval = false ∧
    (stopPlayback st).isPlayingBack = false ∧
    (stopPlayback st).recording = st.recording ∧
    (stopPlayback st).hasRecording = st.hasRecording := by
  cases h : st.playbackInterval <;> simp [stopPlayback, h]

/-- While armed, a sequence of captures appends exactly one frame per
capture, stamped with the elapsed time since the recording start, and
changes nothing else. -/
theorem runCaptures_armed (caps : List (ℚ × ℚ × ℚ)) (st : RecorderST)
    (h : st.isRecording = true) :
    runCaptures st caps =
      { st with recording := st.recording ++
          caps.map (fun c => { timestamp := c.1 - st.recordingStartTime,
                               pitch := c.2.1, volume := c.2.2 }) } := by
  induction caps generalizing st with
  | nil => simp [runCaptures]
  | cons c caps ih =>
      simp only [runCaptures, List.foldl_cons] at *
      rw [show recordFrame st c.1 c.2.1 c.2.2 =
            { st with recording := st.recording ++
                [{ timestamp := c.1 - st.recordingStartTime,
                   pitch := c.2.1, volume := c.2.2 }] } by simp [recordFrame, h]]
      rw [ih _ (by simp [h])]
      simp

/-! ## Claim C1 -/

/-- C1: for every sequence of integration steps (any finite acceleration
inputs, any `dt`), starting from the initial tracker (position 0.5),
every value returned by `updatePosition` — which is the position stored
in the tracker — lies in `[0, 1]`; whenever the unclamped update `p2`
exceeds 1 (resp. falls below 0) the step clamps the result to 1
(resp. 0). -/
theorem position_tracker_output_in_unit_interval :
    (∀ (inputs : List (ℚ × ℚ)) (r : ℚ),
      r ∈ updateOutputs pitchTracker0 inputs → 0 ≤ r ∧ r ≤ 1) ∧
    (∀ (tr : PositionTracker) (a dt : ℚ),
      (updatePosition tr a dt).1 = (updatePosition tr a dt).2.position ∧
      (tr.position + ((tr.velocity + a * (8/100) * dt) * (85/100)
          + (1/2 - tr.position) * tr.centeringForce) > 1 →
        (updatePosition tr a dt).1 = 1) ∧
      (tr.position + ((tr.velocity + a * (8/100) * dt) * (85/100)
          + (1/2 - tr.position) * tr.centeringForce) < 0 →
        (updatePosition tr a dt).1 = 0)) := by
  constructor
  · intro inputs r h
    exact updateOutputs_mem_bounds inputs pitchTracker0 r h
  · intro tr a dt
    refine ⟨updatePosition_fst_eq_position tr a dt, ?_, ?_⟩
    · intro h
      simp only [updatePosition]
      rw [if_pos h]
    · intro h
      simp only [updatePosition]
      rw [if_neg (by linarith), if_pos h]

/-- Witness for C1 at a concrete input: a large acceleration overshoots
and the returned position is clamped to 1, inside `[0, 1]`. -/
theorem position_tracker_output_in_unit_interval_witness :
    (1 : ℚ) ∈ updateOutputs pitchTracker0 [(100, 1)] ∧ (0 ≤ (1 : ℚ) ∧ (1 : ℚ) ≤ 1) :=
  ⟨by norm_num [updateOutputs, updatePosition, pitchTracker0],
   position_tracker_output_in_unit_interval.1 [(100, 1)] 1
     (by norm_num [updateOutputs, updatePosition, pitchTracker0])⟩

/-! ## Claim C5 -/

/-- C5: after `stopPlayback` (and likewise after `clearRecording`, which
additionally empties the buffer and clears `hasRecording`) the interval
is cancelled, the state is `Idle`, and no tick ever fires again — so no
further sink invocations occur; `stopPlayback` is the identity on an
already-idle state. -/
theorem stop_playback_cancels_ticks (st : RecorderST) (ts : List ℚ) :
    (stopPlayback st).playbackInterval = false ∧
    (stopPlayback st).isPlayingBack = false ∧
    runTicks (stopPlayback st) ts = (stopPlayback st, []) ∧
    (clearRecording st).recording = [] ∧
    (clearRecording st).hasRecording = false ∧
    (clearRecording st).playbackInterval = false ∧
    (clearRecording st).isPlayingBack = false ∧
    runTicks (clearRecording st) ts = (clearRecording st, []) ∧
    (st.playbackInterval = false → st.isPlayingBack = false → stopPlayback st = st) := by
  obtain ⟨h1, h2, h3, h4⟩ := stopPlayback_fields st
  obtain ⟨g1, g2, g3, g4⟩ :=
    stopPlayback_fields { st with recording := [], hasRecording := false }
  refine ⟨h1, h2, runTicks_inactive ts _ h1, ?_, ?_, g1, g2,
    runTicks_inactive ts _ g1, ?_⟩
  · simpa [clearRecording] using g3
  · simpa [clearRecording] using g4
  · intro hi hp
    cases st
    simp_all [stopPlayback]

/-- Witness for C5 at a concrete already-idle state: stopping is a no-op
and a subsequent tick emits nothing. -/
theorem stop_playback_cancels_ticks_witness :
    runTicks (stopPlayback
        { isRecording := false, hasRecording := false, isPlayingBack := false,
          recording := [], recordingStartTime := 0, playbackInterval := false,
          frameIndex := 0, playbackStartTime := 0 }) [16]
      = (stopPlayback
        { isRecording := false, hasRecording := false, isPlayingBack := false,
          recording := [], recordingStartTime := 0, playbackInterval := false,
          frameIndex := 0, playbackStartTime := 0 }, []) ∧
    stopPlayback
        { isRecording := false, hasRecording := false, isPlayingBack := false,
          recording := [], recordingStartTime := 0, playbackInterval := false,
          frameIndex := 0, playbackStartTime := 0 }
      = { isRecording := false, hasRecording := false, isPlayingBack := false,
          recording := [], recordingStartTime := 0, playbackInterval := false,
          frameIndex := 0, playbackStartTime := 0 } :=
  ⟨(stop_playback_cancels_ticks _ [16]).2.2.1,
   (stop_playback_cancels_ticks _ [16]).2.2.2.2.2.2.2.2 rfl rfl⟩

/-! ## Claim C8 -/

/-- C8: after `startRecording` (which empties the buffer and records the
start instant), `N` `recordFrame` calls at non-decreasing wall-clock
instants not earlier than the start yield a recording of exactly `N`
frames with non-negative, non-decreasing `timestamp` offsets; a
`recordFrame` call while not recording leaves the state unchanged. -/
theorem recorder_arm_capture_yields_monotone_frames
    (st : RecorderST) (now : ℚ) (caps : List (ℚ × ℚ × ℚ))
    (hmono : List.Chain' (· ≤ ·) (now :: caps.map (fun c => c.1))) :
    (runCaptures (startRecording st now) caps).recording.length = caps.length ∧
    (∀ f ∈ (runCaptures (startRecording st now) caps).recording, 0 ≤ f.timestamp) ∧
    List.Chain' (· ≤ ·)
      ((runCaptures (startRecording st now) caps).recording.map
        (fun f => f.timestamp)) ∧
    (∀ (st' : RecorderST) (t p v : ℚ),
      st'.isRecording = false → recordFrame st' t p v = st') := by
  have harm : (startRecording st now).isRecording = true := rfl
  have hrec := runCaptures_armed caps (startRecording st now) harm
  have hrecording : (runCaptures (startRecording st now) caps).recording =
      caps.map (fun c => { timestamp := c.1 - now, pitch := c.2.1, volume := c.2.2 }) := by
    rw [hrec]; simp [startRecording]
  have hpairwise : (now :: caps.map (fun c => c.1)).Pairwise (· ≤ ·) :=
    List.chain'_iff_pairwise.mp hmono
  refine ⟨by simp [hrecording], ?_, ?_, ?_⟩
  · intro f hf
    rw [hrecording] at hf
    obtain ⟨c, hc, rfl⟩ := List.mem_map.mp hf
    have : now ≤ c.1 := by
      have := List.rel_of_pairwise_cons hpairwise (List.mem_map_of_mem (fun c => c.1) hc)
      exact this
    simpa using this
  · rw [hrecording]
    have hchain : List.Chain' (· ≤ ·) (caps.map (fun c => c.1)) := hmono.tail
    rw [List.map_map]
    rw [List.chain'_map] at hchain ⊢
    exact List.Chain'.imp (fun a b hab => by simpa using sub_le_sub_right hab now) hchain
  · intro st' t p v h
    simp [recordFrame, h]

/-- Witness for C8: two captures at instants 10 and 25 after arming at 10
yield offsets 0 and 15, non-negative and non-decreasing; capturing while
idle is a no-op. -/
theorem recorder_arm_capture_yields_monotone_frames_witness :
    List.Chain' (· ≤ ·) ((10 : ℚ) :: [((10 : ℚ), (1 : ℚ), (2 : ℚ)),
      ((25 : ℚ), (3 : ℚ), (4 : ℚ))].map (fun c => c.1)) ∧
    (runCaptures (startRecording
        { isRecording := false, hasRecording := false, isPlayingBack := false,
          recording := [], recordingStartTime := 0, playbackInterval := false,
          frameIndex := 0, playbackStartTime := 0 } 10)
        [((10 : ℚ), (1 : ℚ), (2 : ℚ)), ((25 : ℚ), (3 : ℚ), (4 : ℚ))]).recording.length
      = 2 :=
  ⟨by norm_num,
   (recorder_arm_capture_yields_monotone_frames _ 10 _ (by norm_num)).1⟩

/-! ## Claim C2 (corrected) -/

/-- A live pipeline state whose numeric state is all finite: both
trackers at rest, both filters with `alpha = 0.3`, baseline `(0,0,0)`. -/
def c2LiveState : MotionState :=
  { pitchTracker := ⟨JsNum.num (1/2), JsNum.num 0, JsNum.num (2/100)⟩,
    volumeTracker := ⟨JsNum.num (1/2), JsNum.num 0, JsNum.num (2/100)⟩,
    accelYFilter := ⟨JsNum.num (3/10), JsNum.num 0⟩,
    accelXFilter := ⟨JsNum.num (3/10), JsNum.num 0⟩,
    calib := ⟨[], some (JsNum.num 0, JsNum.num 0, JsNum.num 0)⟩ }

/-- C2 counterexample: a sample whose `x` component is `NaN` (non-finite,
but not `null`) passes the guard of `handleMotion`: a `(pitch, volume)`
pair IS emitted and the X smoothing filter's state DOES change, refuting
the claim that any non-finite component is discarded with no state change
and no emission. -/
theorem nan_sample_not_discarded :
    (handleMotion c2LiveState
        (some ⟨some JsNum.nan, some (JsNum.num 0), some (JsNum.num 0)⟩)).2 ≠ none ∧
    (handleMotion c2LiveState
        (some ⟨some JsNum.nan, some (JsNum.num 0), some (JsNum.num 0)⟩)).1.accelXFilter
      ≠ c2LiveState.accelXFilter := by
  norm_num [handleMotion, c2LiveState, applySmoothingJs, updatePositionJs,
    HSub.hSub, Sub.sub, JsNum.sub, HMul.hMul, Mul.mul, JsNum.mul,
    HAdd.hAdd, Add.add, JsNum.add, JsNum.gtb, JsNum.ltb]
  exact ⟨(fun h => by cases h), (fun h => by cases h)⟩

/-- C2 (amended): a sample whose acceleration object is `null` or that
has a `null` component is discarded entirely: no state change (in
particular no calibration sample is accumulated and no filter or tracker
changes) and no emission.  Finiteness is not checked by the guard. -/
theorem null_sample_discarded (st : MotionState) (accel : Option AccelJs)
    (h : accel = none ∨ ∃ a, accel = some a ∧
      (a.x = none ∨ a.y = none ∨ a.z = none)) :
    handleMotion st accel = (st, none) := by
  rcases h with rfl | ⟨a, rfl, ha⟩
  · rfl
  · obtain ⟨x, y, z⟩ := a
    rcases ha with rfl | rfl | rfl
    · rfl
    · cases x <;> rfl
    · cases x <;> cases y <;> rfl

/-- Witness for the amended C2: a concrete sample with a `null` `x`
component leaves a concrete state unchanged and emits nothing. -/
theorem null_sample_discarded_witness :
    handleMotion c2LiveState (some ⟨none, some (JsNum.num 1), some (JsNum.num 2)⟩)
      = (c2LiveState, none) :=
  null_sample_discarded c2LiveState _ (Or.inr ⟨_, rfl, Or.inl rfl⟩)

/-! ## Claim C3 -/

/-- Folding `+` over a list starting from `a` is `a` plus the sum. -/
theorem foldl_add_eq (f : (ℚ × ℚ × ℚ) → ℚ) :
    ∀ (l : List (ℚ × ℚ × ℚ)) (a : ℚ),
      l.foldl (fun sum s => sum + f s) a = a + (l.map f).sum := by
  intro l
  induction l with
  | nil => intro a; simp
  | cons c l ih => intro a; simp [ih, add_assoc]

/-- As long as fewer than 30 samples have accumulated, `calibrate` only
appends the sample and leaves the baseline unset. -/
theorem runCalibrate_short :
    ∀ (l : List (ℚ × ℚ × ℚ)) (st : CalibState), st.baseline = none →
      st.samples.length + l.length ≤ 29 →
      runCalibrate st l = { samples := st.samples ++ l, baseline := none } := by
  intro l
  induction l with
  | nil =>
      intro st hb _
      obtain ⟨samples, baseline⟩ := st
      simp only at hb
      simp [runCalibrate, hb]
  | cons c l ih =>
      intro st hb hlen
      obtain ⟨c1, c2, c3⟩ := c
      have hlt : ¬ (st.samples ++ [((c1 : ℚ), (c2 : ℚ), (c3 : ℚ))]).length ≥ 30 := by
        simp only [List.length_append, List.length_cons, List.length_nil] at hlen ⊢
        omega
      have hstep : (calibrate st c1 c2 c3).1 =
          { samples := st.samples ++ [(c1, c2, c3)], baseline := none } := by
        simp only [calibrate]
        rw [if_neg hlt, hb]
      show runCalibrate (calibrate st c1 c2 c3).1 l = _
      rw [hstep, ih _ rfl (by simp only [List.length_append, List.length_cons,
        List.length_nil] at hlen ⊢; omega)]
      simp

/-- `runCalibrate` from the initial (empty) state over fewer than 30
samples accumulates exactly those samples with no baseline. -/
theorem runCalibrate_from_empty (l : List (ℚ × ℚ × ℚ)) (hlen : l.length ≤ 29) :
    runCalibrate calibState0 l = { samples := l, baseline := none } := by
  have h := runCalibrate_short l calibState0 rfl
    (by simpa [calibState0] using hlen)
  simpa [calibState0] using h

/-- C3: starting from the empty calibration state, the baseline is still
unset after any number `n < 30` of accepted samples, and each of those
calls reports `calibrating` with fractional progress
`min(100, count/30·100)`; the call that accepts the 30-th sample reports
`complete` and sets the baseline to the per-axis arithmetic mean of the
30 accepted samples; and once a baseline is set, `handleMotion` never
touches the calibration state again (only the explicit reset does). -/
theorem calibrator_complete_after_30 :
    (∀ (l : List (ℚ × ℚ × ℚ)) (n : ℕ), n < 30 →
      (runCalibrate calibState0 (l.take n)).baseline = none) ∧
    (∀ (pre : List (ℚ × ℚ × ℚ)) (c1 c2 c3 : ℚ), pre.length + 1 < 30 →
      (calibrate (runCalibrate calibState0 pre) c1 c2 c3).2 =
        CalibStatus.calibrating (min 100 (((pre.length : ℚ) + 1) / 30 * 100))) ∧
    (∀ (pre : List (ℚ × ℚ × ℚ)) (c1 c2 c3 : ℚ), pre.length = 29 →
      (calibrate (runCalibrate calibState0 pre) c1 c2 c3).2 =
        CalibStatus.complete ∧
      (runCalibrate calibState0 (pre ++ [(c1, c2, c3)])).baseline =
        some (((pre ++ [(c1, c2, c3)]).map (fun s => s.1)).sum / 30,
              ((pre ++ [(c1, c2, c3)]).map (fun s => s.2.1)).sum / 30,
              ((pre ++ [(c1, c2, c3)]).map (fun s => s.2.2)).sum / 30)) ∧
    (∀ (st : MotionState) (accel : Option AccelJs) (b : JsNum × JsNum × JsNum),
      st.calib.baseline = some b → (handleMotion st accel).1.calib = st.calib) := by
  refine ⟨?_, ?_, ?_, ?_⟩
  · intro l n hn
    rw [runCalibrate_from_empty (l.take n)
      (le_trans (l.length_take_le n) (by omega))]
  · intro pre c1 c2 c3 hlen
    rw [runCalibrate_from_empty pre (by omega)]
    have hlt : ¬ (pre ++ [((c1 : ℚ), c2, c3)]).length ≥ 30 := by
      simp only [List.length_append, List.length_cons, List.length_nil]
      omega
    simp only [calibrate]
    rw [if_neg hlt]
    have : ((pre ++ [((c1 : ℚ), c2, c3)]).length : ℚ) = (pre.length : ℚ) + 1 := by
      push_cast [List.length_append, List.length_cons, List.length_nil]
      ring
    rw [this]
  · intro pre c1 c2 c3 hlen
    have hpre := runCalibrate_from_empty pre (by omega)
    have hge : (pre ++ [((c1 : ℚ), c2, c3)]).length ≥ 30 := by
      simp [hlen]
    have hlen30 : ((pre ++ [((c1 : ℚ), c2, c3)]).length : ℚ) = 30 := by
      push_cast [List.length_append, List.length_cons, List.length_nil, hlen]
      norm_num
    constructor
    · rw [hpre]
      simp only [calibrate]
      rw [if_pos hge]
    · have hsplit : runCalibrate calibState0 (pre ++ [((c1 : ℚ), c2, c3)]) =
          (calibrate (runCalibrate calibState0 pre) c1 c2 c3).1 := by
        simp [runCalibrate, List.foldl_append]
      rw [hsplit, hpre]
      simp only [calibrate]
      rw [if_pos hge]
      simp only [foldl_add_eq, hlen30, zero_add]
  · intro st accel b hb
    obtain ⟨b1, b2, b3⟩ := b
    rcases accel with _ | a
    · rfl
    · obtain ⟨x, y, z⟩ := a
      rcases x with _ | ax <;> rcases y with _ | ay <;> rcases z with _ | az <;> try rfl
      simp [handleMotion, hb]

/-- Witness for C3: thirty constant samples `(1,2,3)` leave the baseline
unset through sample 29 and then set it to exactly `(1,2,3)`. -/
theorem calibrator_complete_after_30_witness :
    (runCalibrate calibState0
      ((List.replicate 30 ((1 : ℚ), (2 : ℚ), (3 : ℚ))).take 29)).baseline = none ∧
    (runCalibrate calibState0
      (List.replicate 29 ((1 : ℚ), (2 : ℚ), (3 : ℚ)) ++ [((1 : ℚ), (2 : ℚ), (3 : ℚ))])).baseline
      = some (1, 2, 3) := by
  constructor
  · exact calibrator_complete_after_30.1 _ 29 (by norm_num)
  · have h := (calibrator_complete_after_30.2.2.1
      (List.replicate 29 ((1 : ℚ), (2 : ℚ), (3 : ℚ))) 1 2 3 (by simp)).2
    rw [h]
    norm_num [List.map_append, List.map_replicate, List.sum_append,
      List.sum_replicate, nsmul_eq_mul]
/-! ## Claim C6 -/

/-- Inject a rational-level tracker into JS-number semantics. -/
def liftTracker (t : PositionTracker) : PositionTrackerJs :=
  { position := JsNum.num t.position, velocity := JsNum.num t.velocity,
    centeringForce := JsNum.num t.centeringForce }

/-- Inject a rational-level smoothing filter into JS-number semantics. -/
def liftFilter (f : SmoothingFilter) : SmoothingFilterJs :=
  { alpha := JsNum.num f.alpha, prevValue := JsNum.num f.prevValue }

@[simp] theorem JsNum.num_add (a b : ℚ) :
    JsNum.num a + JsNum.num b = JsNum.num (a + b) := rfl

@[simp] theorem JsNum.num_sub (a b : ℚ) :
    JsNum.num a - JsNum.num b = JsNum.num (a - b) := rfl

@[simp] theorem JsNum.num_mul (a b : ℚ) :
    JsNum.num a * JsNum.num b = JsNum.num (a * b) := rfl

@[simp] theorem JsNum.gtb_num (a b : ℚ) :
    JsNum.gtb (JsNum.num a) (JsNum.num b) = decide (a > b) := rfl

@[simp] theorem JsNum.ltb_num (a b : ℚ) :
    JsNum.ltb (JsNum.num a) (JsNum.num b) = decide (a < b) := rfl

/-- On finite values, the JS-level smoothing filter computes exactly the
rational-level one. -/
theorem applySmoothingJs_lift (f : SmoothingFilter) (v : ℚ) :
    applySmoothingJs (liftFilter f) (JsNum.num v) =
      (JsNum.num (applySmoothing f v).1, liftFilter (applySmoothing f v).2) := rfl

/-- On finite values, the JS-level position tracker computes exactly the
rational-level one. -/
theorem updatePositionJs_lift (t : PositionTracker) (a d : ℚ) :
    updatePositionJs (liftTracker t) (JsNum.num a) (JsNum.num d) =
      (JsNum.num (updatePosition t a d).1, liftTracker (updatePosition t a d).2) := by
  simp only [updatePositionJs, updatePosition, liftTracker,
    JsNum.num_add, JsNum.num_sub, JsNum.num_mul, JsNum.gtb_num, JsNum.ltb_num,
    decide_eq_true_eq]
  split_ifs <;> rfl

/-- While no baseline exists, an accepted sample only advances the
calibrator: `handleMotion` returns the state with `calibrateJs` applied
and emits nothing. -/
theorem handleMotion_awaiting (st : MotionState) (ax ay az : JsNum)
    (hb : st.calib.baseline = none) :
    handleMotion st (some { x := some ax, y := some ay, z := some az }) =
      ({ st with calib := calibrateJs st.calib ax ay az }, none) := by
  simp [handleMotion, hb]

/-- C6: while the baseline is unset, an accepted sample is forwarded only
to the calibrator — trackers and filters are untouched and nothing is
emitted (this includes the 30-th sample, which completes calibration);
once a baseline exists, `handleMotion` emits exactly one `(pitch, volume)`
pair per accepted sample, pitch integrated from the baseline-corrected,
smoothed Y channel and volume from the X channel. -/
theorem pipeline_gates_on_calibration :
    (∀ (st : MotionState) (ax ay az : JsNum), st.calib.baseline = none →
      (handleMotion st (some { x := some ax, y := some ay, z := some az })).2 = none ∧
      (handleMotion st (some { x := some ax, y := some ay, z := some az })).1.pitchTracker
        = st.pitchTracker ∧
      (handleMotion st (some { x := some ax, y := some ay, z := some az })).1.volumeTracker
        = st.volumeTracker ∧
      (handleMotion st (some { x := some ax, y := some ay, z := some az })).1.accelYFilter
        = st.accelYFilter ∧
      (handleMotion st (some { x := some ax, y := some ay, z := some az })).1.accelXFilter
        = st.accelXFilter ∧
      (handleMotion st (some { x := some ax, y := some ay, z := some az })).1.calib
        = calibrateJs st.calib ax ay az) ∧
    (∀ (t1 t2 : PositionTracker) (f1 f2 : SmoothingFilter)
       (cb1 cb2 cb3 qx qy qz : ℚ) (st : MotionState),
      st.pitchTracker = liftTracker t1 → st.volumeTracker = liftTracker t2 →
      st.accelYFilter = liftFilter f1 → st.accelXFilter = liftFilter f2 →
      st.calib.baseline = some (JsNum.num cb1, JsNum.num cb2, JsNum.num cb3) →
      (handleMotion st
          (some ⟨some (JsNum.num qx), some (JsNum.num qy), some (JsNum.num qz)⟩)).2 =
        some (JsNum.num (updatePosition t1 (applySmoothing f1 (qy - cb2)).1 (1/60)).1,
              JsNum.num (updatePosition t2 (applySmoothing f2 (qx - cb1)).1 (1/60)).1)) := by
  constructor
  · intro st ax ay az hb
    rw [handleMotion_awaiting st ax ay az hb]
    exact ⟨rfl, rfl, rfl, rfl, rfl, rfl⟩
  · intro t1 t2 f1 f2 cb1 cb2 cb3 qx qy qz st h1 h2 h3 h4 hb
    simp [handleMotion, hb, h1, h2, h3, h4, applySmoothingJs_lift, updatePositionJs_lift]

/-- A concrete live pipeline state, all numeric state finite. -/
def c6LiveState : MotionState :=
  { pitchTracker := liftTracker { position := 1/2, velocity := 0, centeringForce := 2/100 },
    volumeTracker := liftTracker { position := 1/2, velocity := 0, centeringForce := 2/100 },
    accelYFilter := liftFilter { alpha := 3/10, prevValue := 0 },
    accelXFilter := liftFilter { alpha := 3/10, prevValue := 0 },
    calib := { samples := [], baseline := some (JsNum.num 0, JsNum.num 0, JsNum.num 0) } }

/-- Witness for C6: in a concrete live state at rest, an accepted zero
sample emits exactly `(0.5, 0.5)`. -/
theorem pipeline_gates_on_calibration_witness :
    (handleMotion c6LiveState
        (some ⟨some (JsNum.num 0), some (JsNum.num 0), some (JsNum.num 0)⟩)).2 =
      some (JsNum.num (1/2), JsNum.num (1/2)) := by
  have h := pipeline_gates_on_calibration.2
    { position := 1/2, velocity := 0, centeringForce := 2/100 }
    { position := 1/2, velocity := 0, centeringForce := 2/100 }
    { alpha := 3/10, prevValue := 0 } { alpha := 3/10, prevValue := 0 }
    0 0 0 0 0 0 c6LiveState rfl rfl rfl rfl rfl
  rw [h]
  norm_num [updatePosition, applySmoothing]

/-! ## Claim C10 -/

/-- If fewer than 30 samples would accumulate, feeding accepted samples
into an uncalibrated pipeline touches only the calibration state. -/
theorem runAccepted_awaiting :
    ∀ (l : List (JsNum × JsNum × JsNum)) (st : MotionState),
      st.calib.baseline = none → st.calib.samples.length + l.length ≤ 30 →
      (runAccepted st l).pitchTracker = st.pitchTracker ∧
      (runAccepted st l).volumeTracker = st.volumeTracker ∧
      (runAccepted st l).accelYFilter = st.accelYFilter ∧
      (runAccepted st l).accelXFilter = st.accelXFilter := by
  intro l
  induction l with
  | nil => intro st _ _; exact ⟨rfl, rfl, rfl, rfl⟩
  | cons c l ih =>
      intro st hb hlen
      have hstep : runAccepted st (c :: l) =
          runAccepted { st with calib := calibrateJs st.calib c.1 c.2.1 c.2.2 } l := by
        show runAccepted
          (handleMotion st (some { x := some c.1, y := some c.2.1, z := some c.2.2 })).1 l
            = _
        rw [handleMotion_awaiting st c.1 c.2.1 c.2.2 hb]
      rw [hstep]
      by_cases h30 : (st.calib.samples ++ [(c.1, c.2.1, c.2.2)]).length ≥ 30
      · have hnil : l = [] := by
          simp only [List.length_append, List.length_cons, List.length_nil] at h30 hlen
          have : l.length = 0 := by omega
          exact List.length_eq_zero.mp this
        subst hnil
        exact ⟨rfl, rfl, rfl, rfl⟩
      · have hcal : calibrateJs st.calib c.1 c.2.1 c.2.2 =
            { samples := st.calib.samples ++ [(c.1, c.2.1, c.2.2)],
              baseline := st.calib.baseline } := by
          simp only [calibrateJs]
          rw [if_neg h30]
        refine ih _ ?_ ?_
        · rw [hcal, hb]
        · rw [hcal]
          simp only [List.length_append, List.length_cons, List.length_nil] at hlen ⊢
          omega

/-- C10: the calibration reset performed at the start of every
`requestPermission()` call clears only the baseline and the accumulated
samples; trackers and filters keep their prior values, and they still
hold those values after a full re-calibration pass (up to 30 accepted
samples), so the emitted positions resume from where they were rather
than restarting at 0.5. -/
theorem calibration_reset_preserves_trackers (st : MotionState) :
    (requestPermissionReset st).calib.baseline = none ∧
    (requestPermissionReset st).calib.samples = [] ∧
    (requestPermissionReset st).pitchTracker = st.pitchTracker ∧
    (requestPermissionReset st).volumeTracker = st.volumeTracker ∧
    (requestPermissionReset st).accelYFilter = st.accelYFilter ∧
    (requestPermissionReset st).accelXFilter = st.accelXFilter ∧
    (∀ (l : List (JsNum × JsNum × JsNum)), l.length ≤ 30 →
      (runAccepted (requestPermissionReset st) l).pitchTracker = st.pitchTracker ∧
      (runAccepted (requestPermissionReset st) l).volumeTracker = st.volumeTracker ∧
      (runAccepted (requestPermissionReset st) l).accelYFilter = st.accelYFilter ∧
      (runAccepted (requestPermissionReset st) l).accelXFilter = st.accelXFilter) := by
  refine ⟨rfl, rfl, rfl, rfl, rfl, rfl, ?_⟩
  intro l hlen
  exact runAccepted_awaiting l (requestPermissionReset st) rfl (by simpa [requestPermissionReset] using hlen)

/-- Witness for C10: resetting a concrete live state and re-feeding 30
zero samples leaves the trackers exactly where they were. -/
theorem calibration_reset_preserves_trackers_witness :
    (List.replicate 30 (JsNum.num (0 : ℚ), JsNum.num (0 : ℚ), JsNum.num (0 : ℚ))).length
      ≤ 30 ∧
    (runAccepted (requestPermissionReset c6LiveState)
        (List.replicate 30 (JsNum.num (0 : ℚ), JsNum.num (0 : ℚ), JsNum.num (0 : ℚ)))).pitchTracker
      = c6LiveState.pitchTracker :=
  ⟨by simp,
   ((calibration_reset_preserves_trackers c6LiveState).2.2.2.2.2.2 _ (by simp)).1⟩

/-! ## Claim C4 -/

/-- Full specification of the catch-up loop `dispatchFrom`, by induction
on the remaining frame count: the cursor only advances, stays within
bounds, the emissions are exactly the frames of the half-open index
segment `[i, j)` in order, the frame at the final cursor (if any) is not
yet due, and every frame the loop stepped over was due. -/
theorem dispatchFrom_spec :
    ∀ (n : ℕ) (frames : List RecordedFrame) (i : ℕ) (t : ℚ),
      frames.length - i ≤ n → i ≤ frames.length →
      i ≤ (dispatchFrom frames i t).1 ∧
      (dispatchFrom frames i t).1 ≤ frames.length ∧
      (dispatchFrom frames i t).2 =
        ((frames.take (dispatchFrom frames i t).1).drop i).map
          (fun f => (f.pitch, f.volume)) ∧
      (∀ h : (dispatchFrom frames i t).1 < frames.length,
        t < (frames.get ⟨(dispatchFrom frames i t).1, h⟩).timestamp) ∧
      (∀ (m : ℕ) (hm : m < frames.length), i ≤ m → m < (dispatchFrom frames i t).1 →
        (frames.get ⟨m, hm⟩).timestamp ≤ t) := by
  intro n
  induction n with
  | zero =>
      intro frames i t hfuel hle
      have hni : ¬ i < frames.length := by omega
      rw [dispatchFrom, dif_neg hni]
      refine ⟨le_refl i, hle, ?_, ?_, ?_⟩
      · rw [List.drop_eq_nil_of_le (frames.length_take_le i)]
        rfl
      · intro h; omega
      · intro m _ h1 h2; omega
  | succ n ih =>
      intro frames i t hfuel hle
      by_cases hi : i < frames.length
      · by_cases ht : (frames.get ⟨i, hi⟩).timestamp ≤ t
        · have hred : dispatchFrom frames i t =
              ((dispatchFrom frames (i + 1) t).1,
               ((frames.get ⟨i, hi⟩).pitch, (frames.get ⟨i, hi⟩).volume)
                 :: (dispatchFrom frames (i + 1) t).2) := by
            rw [dispatchFrom, dif_pos hi, if_pos ht]
          obtain ⟨j1, j2, j3, j4, j5⟩ :=
            ih frames (i + 1) t (by omega) (by omega)
          rw [hred]
          refine ⟨by omega, j2, ?_, j4, ?_⟩
          · have hij : i < (dispatchFrom frames (i + 1) t).1 := by omega
            have hitake : i <
                (frames.take (dispatchFrom frames (i + 1) t).1).length := by
              rw [List.length_take]
              omega
            rw [List.drop_eq_getElem_cons hitake, List.map_cons, ← j3]
            have : (frames.take (dispatchFrom frames (i + 1) t).1)[i] =
                frames[i] := List.getElem_take frames
            rw [this]
            simp [List.get_eq_getElem]
          · intro m hm h1 h2
            rcases Nat.eq_or_lt_of_le h1 with rfl | hlt
            · simpa [List.get_eq_getElem] using ht
            · exact j5 m hm hlt h2
        · have hred : dispatchFrom frames i t = (i, []) := by
            rw [dispatchFrom, dif_pos hi, if_neg ht]
          rw [hred]
          refine ⟨le_refl i, by omega, ?_, ?_, ?_⟩
          · rw [List.drop_eq_nil_of_le (frames.length_take_le i)]
            rfl
          · intro h
            exact lt_of_not_le (by simpa using ht)
          · intro m _ h1 h2; omega
      · rw [dispatchFrom, dif_neg hi]
        refine ⟨le_refl i, hle, ?_, ?_, ?_⟩
        · rw [List.drop_eq_nil_of_le (frames.length_take_le i)]
          rfl
        · intro h; omega
        · intro m _ h1 h2; omega

/-- Two adjacent index segments of a list concatenate. -/
theorem seg_append (l : List RecordedFrame) (i j k : ℕ)
    (hij : i ≤ j) (hjk : j ≤ k) (hk : k ≤ l.length) :
    (l.take j).drop i ++ (l.take k).drop j = (l.take k).drop i := by
  have h1 : (l.take k).take j = l.take j := by
    rw [List.take_take, min_eq_left hjk]
  conv_rhs => rw [← List.take_append_drop j (l.take k)]
  rw [h1, List.drop_append_of_le_length]
  rw [List.length_take]
  omega

/-- The playback tick always stores the catch-up loop's final cursor. -/
theorem tickOnce_frameIndex (st : RecorderST) (t : ℚ) :
    (tickOnce st t).1.frameIndex =
      (dispatchFrom st.recording st.frameIndex (t - st.playbackStartTime)).1 := by
  simp only [tickOnce]
  split_ifs <;> rfl

/-- Invariant run of the scheduler: starting from any state that is
mid-playback (cursor within bounds, interval scheduled iff frames remain,
`isPlayingBack` tracking the interval), any sequence of ticks leaves the
recording untouched, only advances the cursor, keeps the invariant, and
emits exactly the frames between the initial and the final cursor, in
order. -/
theorem runTicks_spec (frames : List RecordedFrame) :
    ∀ (ts : List ℚ) (st : RecorderST),
      st.recording = frames → st.frameIndex ≤ frames.length →
      st.playbackInterval = decide (st.frameIndex < frames.length) →
      st.isPlayingBack = st.playbackInterval →
      (runTicks st ts).1.recording = frames ∧
      st.frameIndex ≤ (runTicks st ts).1.frameIndex ∧
      (runTicks st ts).1.frameIndex ≤ frames.length ∧
      (runTicks st ts).1.playbackInterval =
        decide ((runTicks st ts).1.frameIndex < frames.length) ∧
      (runTicks st ts).1.isPlayingBack = (runTicks st ts).1.playbackInterval ∧
      (runTicks st ts).2 =
        ((frames.take (runTicks st ts).1.frameIndex).drop st.frameIndex).map
          (fun f => (f.pitch, f.volume)) := by
  intro ts
  induction ts with
  | nil =>
      intro st hrec hle hint hplay
      simp only [runTicks]
      refine ⟨hrec, le_refl _, hle, hint, hplay, ?_⟩
      rw [List.drop_eq_nil_of_le (frames.length_take_le st.frameIndex)]
      rfl
  | cons t ts ih =>
      intro st hrec hle hint hplay
      by_cases hpi : st.playbackInterval = true
      · have hidx : st.frameIndex < frames.length := by
          rw [hpi] at hint
          exact of_decide_eq_true hint.symm
        obtain ⟨d1, d2, d3, _, _⟩ :=
          dispatchFrom_spec frames.length frames st.frameIndex
            (t - st.playbackStartTime) (by omega) hle
        set j := (dispatchFrom frames st.frameIndex (t - st.playbackStartTime)).1
          with hj
        have hrun : runTicks st (t :: ts) =
            ((runTicks (tickOnce st t).1 ts).1,
             (tickOnce st t).2 ++ (runTicks (tickOnce st t).1 ts).2) := by
          simp [runTicks, hpi]
        have hdisp : (tickOnce st t).2 =
            (dispatchFrom frames st.frameIndex (t - st.playbackStartTime)).2 := by
          simp only [tickOnce, hrec]
          split_ifs <;> rfl
        have hstate :
            (tickOnce st t).1.recording = frames ∧
            (tickOnce st t).1.frameIndex = j ∧
            (tickOnce st t).1.playbackInterval = decide (j < frames.length) ∧
            (tickOnce st t).1.isPlayingBack = (tickOnce st t).1.playbackInterval := by
          by_cases hend : j ≥ frames.length
          · simp only [tickOnce, hrec, ← hj]
            rw [if_pos hend]
            have hnl : ¬ j < frames.length := by omega
            simp [hnl, hrec]
          · simp only [tickOnce, hrec, ← hj]
            rw [if_neg hend]
            have hl : j < frames.length := by omega
            simp [hl, hpi, hplay, hrec]
        obtain ⟨s1, s2, s3, s4⟩ := hstate
        obtain ⟨r1, r2, r3, r4, r5, r6⟩ :=
          ih (tickOnce st t).1 s1 (by omega) (by rw [s3, s2]) s4
        have r2' : j ≤ (runTicks (tickOnce st t).1 ts).1.frameIndex := by
          rw [← s2]; exact r2
        rw [hrun]
        dsimp only
        refine ⟨r1, by omega, r3, r4, r5, ?_⟩
        rw [hdisp, d3, r6, s2, ← List.map_append,
          seg_append frames st.frameIndex j (runTicks (tickOnce st t).1 ts).1.frameIndex
            d1 r2' r3]
      · have hskip : runTicks st (t :: ts) = runTicks st ts := by
          simp [runTicks, hpi]
        rw [hskip]
        exact ih st hrec hle hint hplay

/-- C4: during playback of a non-empty recording, the concatenated sink
emissions of any tick sequence are exactly the recorded frames up to the
final cursor, in recorded order (so each frame is dispatched at most
once, none is skipped, and order is preserved); the interval is cancelled
and the state returns to idle exactly when the cursor reaches the end of
the recording — the sole normal termination path; and, for a recording
with non-decreasing timestamps, a single tick dispatches every
not-yet-dispatched frame whose offset is due at that tick. -/
theorem playback_in_order_and_terminates :
    (∀ (st : RecorderST) (now : ℚ) (ts : List ℚ),
      st.recording ≠ [] →
      (runTicks (playRecording st now) ts).2 =
        (st.recording.take (runTicks (playRecording st now) ts).1.frameIndex).map
          (fun f => (f.pitch, f.volume)) ∧
      (runTicks (playRecording st now) ts).1.frameIndex ≤ st.recording.length ∧
      (st.recording.length ≤ (runTicks (playRecording st now) ts).1.frameIndex →
        (runTicks (playRecording st now) ts).1.playbackInterval = false ∧
        (runTicks (playRecording st now) ts).1.isPlayingBack = false) ∧
      ((runTicks (playRecording st now) ts).1.frameIndex < st.recording.length →
        (runTicks (playRecording st now) ts).1.playbackInterval = true ∧
        (runTicks (playRecording st now) ts).1.isPlayingBack = true)) ∧
    (∀ (st : RecorderST) (t : ℚ),
      st.recording.Pairwise (fun a b => a.timestamp ≤ b.timestamp) →
      ∀ (m : ℕ) (hm : m < st.recording.length), st.frameIndex ≤ m →
        (st.recording.get ⟨m, hm⟩).timestamp ≤ t - st.playbackStartTime →
        m < (tickOnce st t).1.frameIndex) := by
  constructor
  · intro st now ts hne
    have hnz : st.recording.length ≠ 0 := by
      simpa using fun h => hne (List.length_eq_zero.mp h)
    have hplay : playRecording st now =
        { st with isPlayingBack := true, frameIndex := 0,
                  playbackStartTime := now, playbackInterval := true } := by
      simp [playRecording, hnz]
    obtain ⟨r1, _, r3, r4, r5, r6⟩ :=
      runTicks_spec st.recording ts (playRecording st now)
        (by rw [hplay]) (by rw [hplay]; exact Nat.zero_le _)
        (by rw [hplay]; simp [Nat.pos_of_ne_zero hnz])
        (by rw [hplay])
    refine ⟨?_, r3, ?_, ?_⟩
    · rw [r6, hplay]
      simp
    · intro hend
      have : ¬ (runTicks (playRecording st now) ts).1.frameIndex
          < st.recording.length := by omega
      rw [r4, decide_eq_false this] at r5 ⊢
      exact ⟨rfl, r5⟩
    · intro hlt
      rw [r4, decide_eq_true_eq.mpr hlt] at r5 ⊢
      exact ⟨rfl, r5⟩
  · intro st t hsort m hm hge hdue
    rw [tickOnce_frameIndex]
    obtain ⟨d1, d2, _, d4, _⟩ :=
      dispatchFrom_spec st.recording.length st.recording st.frameIndex
        (t - st.playbackStartTime) (by omega) (by omega)
    set j := (dispatchFrom st.recording st.frameIndex (t - st.playbackStartTime)).1
      with hj
    by_cases hmj : m < j
    · exact hmj
    · exfalso
      have hjm : j ≤ m := by omega
      have hjlen : j < st.recording.length := by omega
      have hstop := d4 hjlen
      have hmono : (st.recording.get ⟨j, hjlen⟩).timestamp ≤
          (st.recording.get ⟨m, hm⟩).timestamp := by
        rcases Nat.eq_or_lt_of_le hjm with heq | hlt
        · subst heq; exact le_refl _
        · exact List.pairwise_iff_get.mp hsort ⟨j, hjlen⟩ ⟨m, hm⟩ hlt
      linarith

/-- A concrete recorder state holding a two-frame recording. -/
def c4State : RecorderST :=
  { isRecording := false, hasRecording := true, isPlayingBack := false,
    recording := [{ timestamp := 0, pitch := 1/5, volume := 3/10 },
                  { timestamp := 50, pitch := 1/2, volume := 3/5 }],
    recordingStartTime := 0, playbackInterval := false,
    frameIndex := 0, playbackStartTime := 0 }

/-- Witness for C4: the two-frame recording of `c4State`, played with
ticks at 0 and 50 ms, emits exactly the two recorded pairs in order. -/
theorem playback_in_order_and_terminates_witness :
    c4State.recording ≠ [] ∧
    (runTicks (playRecording c4State 0) [0, 50]).2
      = [((1 : ℚ)/5, (3 : ℚ)/10), ((1 : ℚ)/2, (3 : ℚ)/5)] := by
  have hd2 : dispatchFrom [{ timestamp := 0, pitch := 1/5, volume := 3/10 },
      { timestamp := 50, pitch := 1/2, volume := 3/5 }] 2 50 = (2, []) := by
    rw [dispatchFrom]
    norm_num
  have hd1 : dispatchFrom [{ timestamp := 0, pitch := 1/5, volume := 3/10 },
      { timestamp := 50, pitch := 1/2, volume := 3/5 }] 1 50 = (2, [(1/2, 3/5)]) := by
    rw [dispatchFrom]
    norm_num [hd2]
  have hd0 : dispatchFrom [{ timestamp := 0, pitch := 1/5, volume := 3/10 },
      { timestamp := 50, pitch := 1/2, volume := 3/5 }] 1 0 = (1, []) := by
    rw [dispatchFrom]
    norm_num
  have hd00 : dispatchFrom [{ timestamp := 0, pitch := 1/5, volume := 3/10 },
      { timestamp := 50, pitch := 1/2, volume := 3/5 }] 0 0 = (1, [(1/5, 3/10)]) := by
    rw [dispatchFrom]
    norm_num [hd0]
  have he1 : (runTicks (playRecording c4State 0) [0, 50]).1.frameIndex = 2 := by
    norm_num [runTicks, tickOnce, playRecording, c4State, hd00, hd1]
  have happ := (playback_in_order_and_terminates.1 c4State 0 [0, 50]
    (by simp [c4State])).1
  refine ⟨by simp [c4State], happ.trans ?_⟩
  rw [he1]
  norm_num [c4State]

/-! ## Claim C7 -/

/-- `n` repeated applications of the smoothing filter to the constant
input `v`, keeping the filter state. -/
def smoothIter (f : SmoothingFilter) (v : ℚ) : ℕ → SmoothingFilter
  | 0 => f
  | n + 1 => (applySmoothing (smoothIter f v n) v).2

/-- The smoothing coefficient never changes. -/
theorem smoothIter_alpha (f : SmoothingFilter) (v : ℚ) :
    ∀ n, (smoothIter f v n).alpha = f.alpha := by
  intro n
  induction n with
  | zero => rfl
  | succ n ih => simp [smoothIter, applySmoothing, ih]

/-- Closed form of the error: each application multiplies the distance
from the constant input by exactly `1 - alpha`. -/
theorem smoothIter_err (f : SmoothingFilter) (v : ℚ) :
    ∀ n, (smoothIter f v n).prevValue - v
      = (1 - f.alpha) ^ n * (f.prevValue - v) := by
  intro n
  induction n with
  | zero => simp [smoothIter]
  | succ n ih =>
      have ha := smoothIter_alpha f v n
      simp only [smoothIter, applySmoothing, ha]
      rw [pow_succ]
      linear_combination (1 - f.alpha) * ih

/-- C7: for every `alpha ∈ (0, 1]`, every initial `prevValue` and every
constant input `v`, each application of the smoothing filter multiplies
the error `prevValue - v` by exactly `1 - alpha`, and the error converges
to 0: for every `ε > 0` there is an `N` past which `|prevValue - v| < ε`. -/
theorem smoothing_filter_converges (f : SmoothingFilter) (v : ℚ)
    (h0 : 0 < f.alpha) (h1 : f.alpha ≤ 1) :
    (∀ n : ℕ, (smoothIter f v (n + 1)).prevValue - v
        = (1 - f.alpha) * ((smoothIter f v n).prevValue - v)) ∧
    (∀ ε : ℚ, 0 < ε → ∃ N : ℕ, ∀ n : ℕ, N ≤ n →
      |(smoothIter f v n).prevValue - v| < ε) := by
  constructor
  · intro n
    rw [smoothIter_err f v (n + 1), smoothIter_err f v n, pow_succ]
    ring
  · intro ε hε
    set E := |f.prevValue - v| with hE
    have hE0 : 0 ≤ E := abs_nonneg _
    have hr0 : 0 ≤ 1 - f.alpha := by linarith
    have hr1 : 1 - f.alpha < 1 := by linarith
    obtain ⟨N, hN⟩ := exists_pow_lt_of_lt_one
      (div_pos hε (by linarith : (0 : ℚ) < E + 1)) hr1
    refine ⟨N, fun n hn => ?_⟩
    have habs : |(smoothIter f v n).prevValue - v| = (1 - f.alpha) ^ n * E := by
      rw [smoothIter_err, abs_mul, abs_pow, abs_of_nonneg hr0]
    have hmono : (1 - f.alpha) ^ n ≤ (1 - f.alpha) ^ N :=
      pow_le_pow_of_le_one hr0 (by linarith) hn
    have hlt : (1 - f.alpha) ^ N * (E + 1) < ε :=
      (lt_div_iff₀ (by linarith : (0 : ℚ) < E + 1)).mp hN
    have hp0 : 0 ≤ (1 - f.alpha) ^ N := pow_nonneg hr0 N
    rw [habs]
    nlinarith [mul_le_mul_of_nonneg_right hmono hE0]

/-- Witness for C7: the pipeline's own filter (`alpha = 0.3`) starting at
`prevValue = 0` with constant input 1: the one-step error identity and
the convergence statement hold at these concrete values. -/
theorem smoothing_filter_converges_witness :
    ((0 : ℚ) < 3/10 ∧ (3 : ℚ)/10 ≤ 1) ∧
    (smoothIter { alpha := 3/10, prevValue := 0 } 1 1).prevValue - 1
      = (1 - 3/10) * ((smoothIter { alpha := 3/10, prevValue := 0 } 1 0).prevValue - 1) ∧
    (∀ ε : ℚ, 0 < ε → ∃ N : ℕ, ∀ n : ℕ, N ≤ n →
      |(smoothIter { alpha := 3/10, prevValue := 0 } 1 n).prevValue - 1| < ε) :=
  ⟨⟨by norm_num, by norm_num⟩,
   (smoothing_filter_converges { alpha := 3/10, prevValue := 0 } 1
     (by norm_num) (by norm_num)).1 0,
   (smoothing_filter_converges { alpha := 3/10, prevValue := 0 } 1
     (by norm_num) (by norm_num)).2⟩

/-! ## Claim C9

With zero acceleration, one integration step acts on the error
`e = position - 1/2` and the velocity `v` as the linear map
`e' = (49/50)·e + (17/20)·v`, `v' = (17/20)·v - (1/50)·e` (before
clamping).  Its eigenvalues are complex with squared modulus equal to the
determinant `17/20 < 1`, so the quadratic form `lyap` below — the squared
norm in the eigenbasis — contracts by exactly `17/20` per unclamped step,
and the boundary clamp with `velocity *= -0.5` only decreases it further.
This yields geometric convergence of the position to `1/2`.
-/

/-- One integration step with zero acceleration (the source's default
`dt = 1/60`; the acceleration term vanishes anyway). -/
def stepZero (tr : PositionTracker) : PositionTracker :=
  (updatePosition tr 0 (1/60)).2

/-- The contracting quadratic form for the zero-acceleration dynamics. -/
def lyap (e v : ℚ) : ℚ :=
  (400/289) * e ^ 2 + (40000/511) * (v + (13/170) * e) ^ 2

/-- The quadratic form evaluated on a tracker state. -/
def lyapOf (tr : PositionTracker) : ℚ :=
  lyap (tr.position - 1/2) tr.velocity

/-- `lyap` is nonnegative. -/
theorem lyap_nonneg (e v : ℚ) : 0 ≤ lyap e v := by
  unfold lyap
  positivity

/-- `lyap` dominates the squared position error. -/
theorem sq_le_lyap (e v : ℚ) : e ^ 2 ≤ lyap e v := by
  unfold lyap
  nlinarith [sq_nonneg (v + (13/170) * e), sq_nonneg e]

/-- The unclamped zero-acceleration step contracts `lyap` by exactly
`17/20` (the determinant of the step's linear map). -/
theorem lyap_contract (e v : ℚ) :
    lyap ((49/50) * e + (17/20) * v) ((17/20) * v - (1/50) * e)
      = (17/20) * lyap e v := by
  unfold lyap
  ring

/-- `lyap` is symmetric under negating the state. -/
theorem lyap_neg (e v : ℚ) : lyap (-e) (-v) = lyap e v := by
  unfold lyap
  ring

/-- Clamping an upward overshoot (`e2 > 1/2` reached with positive
velocity) to the boundary, with the `-0.5` velocity bounce, does not
increase `lyap`. -/
theorem lyap_clamp_high (e2 v2 : ℚ) (he : 1/2 < e2) (hv : 0 < v2) :
    lyap (1/2) (v2 * (-(1/2))) ≤ lyap e2 v2 := by
  unfold lyap
  have h1 : 0 < (e2 - 1/2) * (e2 + 1/2) :=
    mul_pos (by linarith) (by linarith)
  have h2 : 0 < v2/2 + (13/170) * e2 + 13/340 := by linarith
  have h3 : 0 < 3*v2/2 + (13/170) * e2 - 13/340 := by linarith
  nlinarith [h1, mul_pos h2 h3]

/-- One zero-acceleration step from any in-range position contracts
`lyap` by at least the factor `17/20`. -/
theorem lyap_step (tr : PositionTracker) (hc : tr.centeringForce = 1/50)
    (hp0 : 0 ≤ tr.position) (hp1 : tr.position ≤ 1) :
    lyapOf (stepZero tr) ≤ (17/20) * lyapOf tr := by
  obtain ⟨p, v, c⟩ := tr
  simp only at hc hp0 hp1
  subst hc
  show lyapOf
      ((updatePosition { position := p, velocity := v, centeringForce := 1/50 }
        0 (1/60)).2)
    ≤ (17/20) * lyap (p - 1/2) v
  simp only [updatePosition]
  generalize hwdef : (v + 0 * (8/100) * (1/60)) * (85/100) + (1/2 - p) * (1/50) = w
  have hw : w = (17/20) * v - (1/50) * (p - 1/2) := by
    rw [← hwdef]; ring
  split_ifs with hgt hlt
  · -- overshoot above 1: clamp to 1, bounce velocity
    show lyap ((1 : ℚ) - 1/2) (w * (-(1/2))) ≤ (17/20) * lyap (p - 1/2) v
    have hv2 : 0 < w := by linarith
    have he2 : 1/2 < (p + w) - 1/2 := by linarith
    calc lyap ((1 : ℚ) - 1/2) (w * (-(1/2)))
        = lyap (1/2) (w * (-(1/2))) := by norm_num
      _ ≤ lyap ((p + w) - 1/2) w := lyap_clamp_high _ _ he2 hv2
      _ = lyap ((49/50) * (p - 1/2) + (17/20) * v)
            ((17/20) * v - (1/50) * (p - 1/2)) := by
          rw [hw]; unfold lyap; ring
      _ = (17/20) * lyap (p - 1/2) v := lyap_contract _ _
  · -- overshoot below 0: clamp to 0, bounce velocity
    show lyap ((0 : ℚ) - 1/2) (w * (-(1/2))) ≤ (17/20) * lyap (p - 1/2) v
    have hv2 : w < 0 := by linarith
    have he2 : 1/2 < -((p + w) - 1/2) := by linarith
    have hneg :
        lyap ((0 : ℚ) - 1/2) (w * (-(1/2))) = lyap (1/2) ((-w) * (-(1/2))) := by
      rw [show ((0 : ℚ) - 1/2) = -(1/2) by norm_num,
        show w * (-(1/2)) = -((-w) * (-(1/2))) by ring, lyap_neg]
    calc lyap ((0 : ℚ) - 1/2) (w * (-(1/2)))
        = lyap (1/2) ((-w) * (-(1/2))) := hneg
      _ ≤ lyap (-((p + w) - 1/2)) (-w) := lyap_clamp_high _ _ he2 (by linarith)
      _ = lyap ((p + w) - 1/2) w := lyap_neg _ _
      _ = lyap ((49/50) * (p - 1/2) + (17/20) * v)
            ((17/20) * v - (1/50) * (p - 1/2)) := by
          rw [hw]; unfold lyap; ring
      _ = (17/20) * lyap (p - 1/2) v := lyap_contract _ _
  · -- no clamp
    show lyap ((p + w) - 1/2) w ≤ (17/20) * lyap (p - 1/2) v
    refine le_of_eq ?_
    calc lyap ((p + w) - 1/2) w
        = lyap ((49/50) * (p - 1/2) + (17/20) * v)
            ((17/20) * v - (1/50) * (p - 1/2)) := by
          rw [hw]; unfold lyap; ring
      _ = (17/20) * lyap (p - 1/2) v := lyap_contract _ _

/-- `stepZero` keeps the centering force and keeps the position within
`[0, 1]`. -/
theorem stepZero_invariants (tr : PositionTracker) :
    (stepZero tr).centeringForce = tr.centeringForce ∧
    0 ≤ (stepZero tr).position ∧ (stepZero tr).position ≤ 1 := by
  refine ⟨updatePosition_centeringForce tr 0 (1/60), ?_, ?_⟩
  · have h := (updatePosition_fst_bounds tr 0 (1/60)).1
    rwa [updatePosition_fst_eq_position] at h
  · have h := (updatePosition_fst_bounds tr 0 (1/60)).2
    rwa [updatePosition_fst_eq_position] at h

/-- Along the zero-acceleration trajectory, `lyap` decays geometrically
with ratio `17/20`. -/
theorem lyap_iterate (tr : PositionTracker) (hc : tr.centeringForce = 1/50)
    (hp0 : 0 ≤ tr.position) (hp1 : tr.position ≤ 1) :
    ∀ n : ℕ, lyapOf (stepZero^[n] tr) ≤ (17/20) ^ n * lyapOf tr := by
  have hcn : ∀ n : ℕ, (stepZero^[n] tr).centeringForce = 1/50 := by
    intro n
    induction n with
    | zero => exact hc
    | succ n ih =>
        rw [Function.iterate_succ_apply', (stepZero_invariants _).1, ih]
  have hpn : ∀ n : ℕ, 0 ≤ (stepZero^[n] tr).position ∧
      (stepZero^[n] tr).position ≤ 1 := by
    intro n
    cases n with
    | zero => exact ⟨hp0, hp1⟩
    | succ n =>
        rw [Function.iterate_succ_apply']
        exact ⟨(stepZero_invariants _).2.1, (stepZero_invariants _).2.2⟩
  intro n
  induction n with
  | zero => simp
  | succ n ih =>
      rw [Function.iterate_succ_apply']
      calc lyapOf (stepZero (stepZero^[n] tr))
          ≤ (17/20) * lyapOf (stepZero^[n] tr) :=
            lyap_step _ (hcn n) (hpn n).1 (hpn n).2
        _ ≤ (17/20) * ((17/20) ^ n * lyapOf tr) := by
            have h1720 : (0 : ℚ) ≤ 17/20 := by norm_num
            exact mul_le_mul_of_nonneg_left ih h1720
        _ = (17/20) ^ (n + 1) * lyapOf tr := by ring

/-- C9: with acceleration held at zero, for every initial tracker state
with position in `[0, 1]` (and the source's centering force `0.02`),
repeated integration steps drive the position to `1/2`: for every
`ε > 0` there is an `N` past which `|position - 1/2| < ε`. -/
theorem zero_accel_converges_to_center (p v : ℚ) (hp0 : 0 ≤ p) (hp1 : p ≤ 1) :
    ∀ ε : ℚ, 0 < ε → ∃ N : ℕ, ∀ n : ℕ, N ≤ n →
      |(stepZero^[n]
          { position := p, velocity := v, centeringForce := 1/50 }).position
        - 1/2| < ε := by
  intro ε hε
  set tr0 : PositionTracker :=
    { position := p, velocity := v, centeringForce := 1/50 } with htr0
  have hQ0 : 0 ≤ lyapOf tr0 := lyap_nonneg _ _
  have hQ1 : (0 : ℚ) < lyapOf tr0 + 1 := by linarith
  obtain ⟨N, hN⟩ := exists_pow_lt_of_lt_one
    (div_pos (by positivity : (0 : ℚ) < ε ^ 2) hQ1)
    (by norm_num : (17 : ℚ)/20 < 1)
  refine ⟨N, fun n hn => ?_⟩
  have hiter := lyap_iterate tr0 rfl hp0 hp1 n
  have hmono : ((17 : ℚ)/20) ^ n ≤ (17/20) ^ N :=
    pow_le_pow_of_le_one (by norm_num) (by norm_num) hn
  have hQn : lyapOf (stepZero^[n] tr0) ≤ (17/20) ^ N * lyapOf tr0 :=
    le_trans hiter (mul_le_mul_of_nonneg_right hmono hQ0)
  have hppos : (0 : ℚ) < (17/20) ^ N := pow_pos (by norm_num) N
  have hfin : ((17 : ℚ)/20) ^ N * lyapOf tr0 < ε ^ 2 := by
    have h1 : ((17 : ℚ)/20) ^ N * (lyapOf tr0 + 1) < ε ^ 2 :=
      (lt_div_iff₀ hQ1).mp hN
    nlinarith
  have hsq : ((stepZero^[n] tr0).position - 1/2) ^ 2 < ε ^ 2 := by
    have hdom := sq_le_lyap ((stepZero^[n] tr0).position - 1/2)
      (stepZero^[n] tr0).velocity
    have : lyap ((stepZero^[n] tr0).position - 1/2) (stepZero^[n] tr0).velocity
        = lyapOf (stepZero^[n] tr0) := rfl
    rw [this] at hdom
    linarith
  rw [abs_lt]
  constructor <;> nlinarith [hsq, hε]

/-- Witness for C9: starting at the upper rail with a large velocity, the
zero-acceleration trajectory still converges to the center. -/
theorem zero_accel_converges_to_center_witness :
    ((0 : ℚ) ≤ 1 ∧ (1 : ℚ) ≤ 1 ∧ (0 : ℚ) < 1/100) ∧
    (∃ N : ℕ, ∀ n : ℕ, N ≤ n →
      |(stepZero^[n]
          { position := 1, velocity := 7, centeringForce := 1/50 }).position
        - 1/2| < 1/100) :=
  ⟨⟨by norm_num, by norm_num, by norm_num⟩,
   zero_accel_converges_to_center 1 7 (by norm_num) (by norm_num) (1/100)
     (by norm_num)⟩

end Theramin
